import Mathlib

/-!
# Verification of ffmpeg-nmlz orchestration logic

Shallow embedding of the pure orchestration logic of `ffmpeg_nmlz`
(`src/ffmpeg_nmlz/__main__.py` and `src/ffmpeg_nmlz/main.py`): preset/argument
resolution, output-path derivation, volume-regex extraction, gain computation,
glob expansion, deduplication, and the error model of the external-tool calls.

Python floats are modelled as rationals (`ℚ`): the operations the claims are
about (`abs`, `max`, decimal parsing) are exact at the precision involved.
Filesystem and subprocess effects are modelled by explicit environments
(`FS`, `LaunchResult`): the pure decision logic is translated verbatim.
-/

namespace FfmpegNmlz

/-- `FormatConfig` from `__main__.py`: `(encoder, extension, bitrate)`. -/
structure FormatConfig where
  encoder : String
  extension : String
  bitrate : Option String
deriving DecidableEq, Repr

/-- `PRESET_INFO` from `__main__.py`: preset name → format configuration. -/
def PRESET_INFO : List (String × FormatConfig) :=
  [ ("m4a",  ⟨"libfdk_aac", "m4a", some "128K"⟩),
    ("aac",  ⟨"libfdk_aac", "m4a", some "128K"⟩),
    ("mp3",  ⟨"libmp3lame", "mp3", some "192K"⟩),
    ("opus", ⟨"libopus", "opus", some "128K"⟩),
    ("ogg",  ⟨"libvorbis", "ogg", some "160K"⟩),
    ("wav",  ⟨"pcm_s16le", "wav", none⟩),
    ("flac", ⟨"flac", "flac", none⟩) ]

/-- Dictionary lookup `PRESET_INFO[name]` (as used via `in` + indexing). -/
def lookupPreset (name : String) : Option FormatConfig :=
  (PRESET_INFO.find? (fun p => p.1 == name)).map (fun p => p.2)

/-! ## Target gain (`do_normalizing` line 214 / `normalize` line 79)

`target_volume = max(abs(max_volume), 0)`. -/

/-- `max(abs(max_volume), 0)` from `do_normalizing` / `normalize`. -/
def targetVolume (maxVolume : ℚ) : ℚ := max |maxVolume| 0

/-! ## External process invocation (`call_ffmpeg`)

The outcome of `Popen` + `communicate` is a `LaunchResult`; `call_ffmpeg`'s
control flow on it is translated verbatim.  The three `FfmpegNmlzError`
messages play the role of the spec's ToolMissingError / ToolLaunchError /
ToolExecutionError. -/

/-- Outcome of trying to launch the external binary: `FileNotFoundError`,
any other spawn exception, or a started process with an exit code and the
merged stdout+stderr text. -/
inductive LaunchResult where
  | notFound : LaunchResult
  | launchFailure : LaunchResult
  | started (returncode : Int) (stdout : String) : LaunchResult
deriving DecidableEq, Repr

def toolMissingMsg : String := "FFmpeg is not installed. Please install FFmpeg first."
def toolLaunchMsg : String := "Failed to start FFmpeg. Please check your FFmpeg installation."
def toolExecutionMsg : String := "FFmpeg exited abnormally."

/-- `call_ffmpeg` from `__main__.py`: maps the launch outcome to the captured
text or the corresponding `FfmpegNmlzError` message. -/
def callFfmpeg : LaunchResult → Except String String
  | .notFound => .error toolMissingMsg
  | .launchFailure => .error toolLaunchMsg
  | .started returncode stdout =>
      if returncode ≠ 0 then .error toolExecutionMsg else .ok stdout

/-! ## Volume extraction (`VOLUME_REGEX`, `ffmpeg_get_max_volume`)

`VOLUME_REGEX = re.compile(r'max_volume: ([\-\d.]+) dB\n')`.
`re.search` finds the leftmost match; at a position, the greedy `[\-\d.]+`
would backtrack, but since the space that must follow the group is not in the
character class, the only possible capture is the maximal run of class
characters — so the model takes the maximal run directly. -/

/-- Membership in the character class `[\-\d.]`. -/
def isVolChar (c : Char) : Bool := c == '-' || c.isDigit || c == '.'

/-- Try to match `max_volume: ([\-\d.]+) dB\n` at the head of `s`, returning
the captured group: the 12-character literal, then the non-empty greedy run of
class characters (`takeWhile`), then the literal `" dB\n"` on the remainder
after the run (`dropWhile isVolChar = drop run.length ∘ drop 12`). -/
def matchVolAt (s : List Char) : Option (List Char) :=
  if "max_volume: ".data.isPrefixOf s then
    if ((s.drop 12).takeWhile isVolChar).isEmpty then none
    else if " dB\n".data.isPrefixOf ((s.drop 12).dropWhile isVolChar) then
      some ((s.drop 12).takeWhile isVolChar)
    else none
  else none

/-- `re.search`: the match at the leftmost position where one exists. -/
def searchVol : List Char → Option (List Char)
  | [] => none
  | c :: rest =>
    match matchVolAt (c :: rest) with
    | some r => some r
    | none => searchVol rest

/-- Value of a digit string, most significant first. -/
def digitsVal (cs : List Char) : ℚ :=
  cs.foldl (fun a c => a * 10 + ((c.toNat - 48 : ℕ) : ℚ)) 0

/-- Python `float()` on an unsigned string over the alphabet `{-, 0-9, .}`:
digits with at most one dot, at least one digit. -/
def parseUnsigned (cs : List Char) : Option ℚ :=
  let intPart := cs.takeWhile (fun c => c != '.')
  let rest := cs.dropWhile (fun c => c != '.')
  if !intPart.all Char.isDigit then none
  else
    match rest with
    | [] => if intPart.isEmpty then none else some (digitsVal intPart)
    | _ :: frac =>
      if frac.all Char.isDigit && !(intPart.isEmpty && frac.isEmpty) then
        some (digitsVal intPart + digitsVal frac / 10 ^ frac.length)
      else none

/-- Python `float()` on a captured group (optional leading minus sign). -/
def parseFloat (cs : List Char) : Option ℚ :=
  match cs with
  | '-' :: rest => (parseUnsigned rest).map (fun q => -q)
  | _ => parseUnsigned cs

/-- The pure core of `ffmpeg_get_max_volume`: `VOLUME_REGEX.search(stdout)`
followed by `float(m.group(1))`; `none` models the uncaught exception when
the regex does not match (`AttributeError`) or the number is malformed
(`ValueError`). -/
def extractMaxVolume (stdout : String) : Option ℚ :=
  (searchVol stdout.data).bind parseFloat

/-! ## Claim C1: target gain -/

/-- C1: the gain passed to the encode pass is `max(abs(max_volume), 0)`,
which equals `|max_volume|` and is always non-negative; measured `-3.2`
yields `3.2`, `0` yields `0`, and `2` (clipping) yields a boost of `2`. -/
theorem c1_target_gain (v : ℚ) :
    targetVolume v = |v| ∧ 0 ≤ targetVolume v ∧
    targetVolume (-(32/10)) = 32/10 ∧ targetVolume 0 = 0 ∧ targetVolume 2 = 2 := by
  refine ⟨max_eq_left (abs_nonneg v), le_max_right _ _, ?_, ?_, ?_⟩
  · simp [targetVolume]
    norm_num
  · simp [targetVolume]
  · simp [targetVolume]

/-! ## Claim C9: error taxonomy of `call_ffmpeg` -/

/-- C9: a binary that cannot be located gives the tool-missing error, any
other spawn failure the tool-launch error, a non-zero exit status the
tool-execution error (distinct from the tool-missing one), and a zero exit
status returns the captured merged output. -/
theorem c9_call_ffmpeg_errors (rc : Int) (out : String) (h : rc ≠ 0) :
    callFfmpeg .notFound = .error toolMissingMsg ∧
    callFfmpeg .launchFailure = .error toolLaunchMsg ∧
    callFfmpeg (.started rc out) = .error toolExecutionMsg ∧
    callFfmpeg (.started 0 out) = .ok out ∧
    toolMissingMsg ≠ toolExecutionMsg ∧
    toolLaunchMsg ≠ toolExecutionMsg ∧
    toolMissingMsg ≠ toolLaunchMsg := by
  refine ⟨rfl, rfl, ?_, ?_, by decide, by decide, by decide⟩
  · simp [callFfmpeg, h]
  · simp [callFfmpeg]

/-- C9 witness: the taxonomy at exit code 1 and output `"vol"`. -/
theorem c9_call_ffmpeg_errors_witness :
    callFfmpeg .notFound = .error toolMissingMsg ∧
    callFfmpeg .launchFailure = .error toolLaunchMsg ∧
    callFfmpeg (.started 1 "vol") = .error toolExecutionMsg ∧
    callFfmpeg (.started 0 "vol") = .ok "vol" ∧
    toolMissingMsg ≠ toolExecutionMsg ∧
    toolLaunchMsg ≠ toolExecutionMsg ∧
    toolMissingMsg ≠ toolLaunchMsg :=
  c9_call_ffmpeg_errors 1 "vol" (by decide)

/-! ## Claim C2: volume extraction -/

/-- C2 counterexample: the claim quantifies over any text containing
`max_volume: -3.2 dB`, but `VOLUME_REGEX` additionally requires a newline
right after `dB`, so on this text (which contains the quoted substring but no
trailing newline) the search finds no match and extraction does not return
`-3.2` — the code falls over with an `AttributeError` instead. -/
theorem c2_counterexample : extractMaxVolume "max_volume: -3.2 dB" = none := by rfl

/-- C2 (amended): extraction takes the first match of
`max_volume: <signed decimal> dB` followed by a newline.  A text whose first
match is `max_volume: -3.2 dB\n` yields `-3.2`; one whose first match is
`max_volume: 1.5 dB\n` yields `1.5`; when both occur, the earlier one wins. -/
theorem c2_extract_max_volume (s : String) :
    extractMaxVolume ("max_volume: -3.2 dB\n" ++ s) = some (-(16/5)) ∧
    extractMaxVolume ("max_volume: 1.5 dB\n" ++ s) = some (3/2) ∧
    extractMaxVolume ("max_volume: 1.5 dB\nmax_volume: -3.2 dB\n" ++ s) = some (3/2) := by
  have hneg : parseFloat ['-', '3', '.', '2'] =
      (some (digitsVal ['3'] + digitsVal ['2'] / 10 ^ (1 : ℕ))).map (fun q => -q) := rfl
  have hpos : parseFloat ['1', '.', '5'] =
      some (digitsVal ['1'] + digitsVal ['5'] / 10 ^ (1 : ℕ)) := rfl
  refine ⟨?_, ?_, ?_⟩
  · rw [extractMaxVolume, String.data_append]
    have h : searchVol ("max_volume: -3.2 dB\n".data ++ s.data) = some ['-', '3', '.', '2'] := by
      simp [searchVol, matchVolAt, isVolChar, List.isPrefixOf]
    rw [h]
    show parseFloat ['-', '3', '.', '2'] = some (-(16/5))
    rw [hneg]
    simp [digitsVal]
    norm_num
  · rw [extractMaxVolume, String.data_append]
    have h : searchVol ("max_volume: 1.5 dB\n".data ++ s.data) = some ['1', '.', '5'] := by
      simp [searchVol, matchVolAt, isVolChar, List.isPrefixOf]
    rw [h]
    show parseFloat ['1', '.', '5'] = some (3/2)
    rw [hpos]
    simp [digitsVal]
    norm_num
  · rw [extractMaxVolume, String.data_append]
    have h : searchVol ("max_volume: 1.5 dB\nmax_volume: -3.2 dB\n".data ++ s.data)
        = some ['1', '.', '5'] := by
      simp [searchVol, matchVolAt, isVolChar, List.isPrefixOf]
    rw [h]
    show parseFloat ['1', '.', '5'] = some (3/2)
    rw [hpos]
    simp [digitsVal]
    norm_num

/-! ## Preset resolution (`RE_PRESET`, `verify_and_prepare_args` lines 130-149)

`RE_PRESET = re.compile(r'([a-zA-Z]+)(\d+)?')`, used with `fullmatch`: the
token must be a non-empty run of ASCII letters followed by an optional run of
digits (by greediness and the disjoint alphabets, `fullmatch` succeeds exactly
when the letter-run prefix plus the digit-run cover the whole token). -/

/-- `RE_PRESET.fullmatch(token).groups()`: `some (letters, digits?)` when the
token is letters followed by optional digits, `none` otherwise. -/
def splitPresetToken (t : String) : Option (String × Option String) :=
  if (t.data.takeWhile Char.isAlpha).isEmpty then none
  else if ((t.data.dropWhile Char.isAlpha).dropWhile Char.isDigit).isEmpty then
    some (⟨t.data.takeWhile Char.isAlpha⟩,
      if ((t.data.dropWhile Char.isAlpha).takeWhile Char.isDigit).isEmpty then none
      else some ⟨(t.data.dropWhile Char.isAlpha).takeWhile Char.isDigit⟩)
  else none

/-- One iteration of the preset-detection loop of `verify_and_prepare_args`:
the state is the current `(encoder, extension, bitrate)` and the accumulated
`input_patterns`. -/
def resolveStep (st : FormatConfig × List String) (t : String) :
    FormatConfig × List String :=
  match splitPresetToken t with
  | some (presetName, parsedBitrate) =>
    match lookupPreset presetName with
    | some cfg =>
      (⟨cfg.encoder, cfg.extension,
        match parsedBitrate with
        | some d => some (d ++ "K")
        | none => cfg.bitrate⟩, st.2)
    | none => (st.1, st.2 ++ [t])
  | none => (st.1, st.2 ++ [t])

/-- The preset-detection loop: starts from `PRESET_INFO['wav']` and folds
`resolveStep` over the positional tokens. -/
def resolvePresets (inputs : List String) : FormatConfig × List String :=
  inputs.foldl resolveStep (⟨"pcm_s16le", "wav", none⟩, [])

/-- `args.extension` override applied after the loop (lines 151-152). -/
def applyExtensionFlag (cfg : FormatConfig) (ext : Option String) : FormatConfig :=
  match ext with
  | some e => ⟨cfg.encoder, e, cfg.bitrate⟩
  | none => cfg

/-- A token is recognized as a preset selection when it pattern-matches and
its letters portion is a key of `PRESET_INFO`. -/
def isPresetSelection (t : String) : Bool :=
  match splitPresetToken t with
  | some (presetName, _) => (lookupPreset presetName).isSome
  | none => false

/-- The fold ignores tokens that are not preset selections, appending them in
order to the pattern list and leaving the configuration unchanged. -/
theorem foldl_resolveStep_no_preset (inputs : List String) :
    ∀ st : FormatConfig × List String, (∀ t ∈ inputs, isPresetSelection t = false) →
      inputs.foldl resolveStep st = (st.1, st.2 ++ inputs) := by
  induction inputs with
  | nil => intro st _; simp
  | cons t ts ih =>
    intro st h
    have ht : isPresetSelection t = false := h t (by simp)
    have hts : ∀ x ∈ ts, isPresetSelection x = false := fun x hx => h x (by simp [hx])
    have hstep : resolveStep st t = (st.1, st.2 ++ [t]) := by
      unfold isPresetSelection at ht
      unfold resolveStep
      cases hs : splitPresetToken t with
      | none => rfl
      | some p =>
        obtain ⟨n, d⟩ := p
        rw [hs] at ht
        dsimp only at ht ⊢
        cases hl : lookupPreset n with
        | none => simp
        | some cfg => rw [hl] at ht; simp at ht
    rw [List.foldl_cons, hstep, ih _ hts]
    simp

/-! ## Claim C3: preset tokens with digit suffixes (code bug)

`[a-zA-Z]+` cannot match the digit inside the preset names `mp3` and `m4a`,
so `RE_PRESET.fullmatch` splits `"mp3320"` into letters `"mp"` + digits
`"3320"` (and `"m4a"` does not match at all): both table entries are
unreachable and such tokens fall through to the file-pattern list, even
though `PRESET_INFO` documents them as preset names. -/

/-- C3: evaluating the argument resolver at the claim's own example.
`"mp3320"` splits into letters `"mp"` (not a table key) and is treated as a
file pattern, leaving the default `wav` configuration — although `mp3` and
`m4a` are keys of the preset table.  A preset name made of letters only does
work as claimed (`"aac128"` → `libfdk_aac`/`m4a`/`128K`, last one wins). -/
theorem c3_digit_preset_unreachable :
    splitPresetToken "mp3320" = some ("mp", some "3320") ∧
    lookupPreset "mp" = none ∧
    resolvePresets ["mp3320"] = (⟨"pcm_s16le", "wav", none⟩, ["mp3320"]) ∧
    splitPresetToken "m4a" = none ∧
    lookupPreset "mp3" = some ⟨"libmp3lame", "mp3", some "192K"⟩ ∧
    lookupPreset "m4a" = some ⟨"libfdk_aac", "m4a", some "128K"⟩ ∧
    resolvePresets ["m4a"] = (⟨"pcm_s16le", "wav", none⟩, ["m4a"]) ∧
    resolvePresets ["flac", "aac128"] = (⟨"libfdk_aac", "m4a", some "128K"⟩, []) :=
  ⟨rfl, rfl, rfl, rfl, rfl, rfl, rfl, rfl⟩

/-! ## Claim C10: default configuration -/

/-- C10: when no positional token is recognized as a preset selection, the
configuration after the loop (before the extension-flag override) is
`PRESET_INFO['wav']` — encoder `pcm_s16le`, extension `wav`, no bitrate —
and every token is kept as a file/glob pattern. -/
theorem c10_default_is_wav (inputs : List String)
    (h : ∀ t ∈ inputs, isPresetSelection t = false) :
    (resolvePresets inputs).1 = ⟨"pcm_s16le", "wav", none⟩ ∧
    lookupPreset "wav" = some ⟨"pcm_s16le", "wav", none⟩ ∧
    (resolvePresets inputs).2 = inputs := by
  have := foldl_resolveStep_no_preset inputs (⟨"pcm_s16le", "wav", none⟩, []) h
  rw [resolvePresets, this]
  exact ⟨rfl, rfl, by simp⟩

/-- C10 witness: two plain file tokens leave the default `wav` preset. -/
theorem c10_default_is_wav_witness :
    (∀ t ∈ ["song.mp3", "tracks/*.flac"], isPresetSelection t = false) ∧
    ((resolvePresets ["song.mp3", "tracks/*.flac"]).1 = ⟨"pcm_s16le", "wav", none⟩ ∧
     lookupPreset "wav" = some ⟨"pcm_s16le", "wav", none⟩ ∧
     (resolvePresets ["song.mp3", "tracks/*.flac"]).2 = ["song.mp3", "tracks/*.flac"]) :=
  ⟨by decide, c10_default_is_wav ["song.mp3", "tracks/*.flac"] (by decide)⟩

/-! ## Deduplication (`verify_and_prepare_args` lines 172-173)

`input_files = list({k: None for k in input_files}.keys())`: a `dict` keeps
keys in insertion order and an existing key keeps its position, so the
comprehension is a left fold of order-preserving insertions. -/

/-- One key insertion of the dict comprehension: a key already present keeps
its position, a new key is appended. -/
def dictInsert (acc : List String) (x : String) : List String :=
  if x ∈ acc then acc else acc ++ [x]

/-- `list({k: None for k in l}.keys())`. -/
def dedupFiles (l : List String) : List String := l.foldl dictInsert []

/-- Specification-side characterization of first-occurrence deduplication:
keep each element's first occurrence, in order. -/
def keepFirst : List String → List String
  | [] => []
  | x :: xs => x :: keepFirst (xs.filter fun y => y ≠ x)
termination_by l => l.length
decreasing_by
  simp only [List.length_cons]
  exact Nat.lt_succ_of_le (List.length_filter_le _ _)

theorem mem_keepFirst (l : List String) : ∀ x, x ∈ keepFirst l ↔ x ∈ l := by
  induction l using keepFirst.induct with
  | case1 => simp [keepFirst]
  | case2 a xs ih =>
    intro x
    rw [keepFirst]
    by_cases hx : x = a
    · simp [hx]
    · simp only [List.mem_cons, ih x, List.mem_filter, hx, false_or]
      simp [hx]

theorem nodup_keepFirst (l : List String) : (keepFirst l).Nodup := by
  induction l using keepFirst.induct with
  | case1 => simp [keepFirst]
  | case2 a xs ih =>
    rw [keepFirst]
    refine List.nodup_cons.mpr ⟨?_, ih⟩
    intro hmem
    have := (mem_keepFirst _ a).mp hmem
    simp [List.mem_filter] at this

theorem sublist_keepFirst (l : List String) : (keepFirst l).Sublist l := by
  induction l using keepFirst.induct with
  | case1 => simp [keepFirst]
  | case2 a xs ih =>
    rw [keepFirst]
    exact List.cons_sublist_cons.mpr (ih.trans (List.filter_sublist xs))

theorem foldl_dictInsert (l : List String) :
    ∀ acc : List String,
      l.foldl dictInsert acc = acc ++ keepFirst (l.filter fun y => y ∉ acc) := by
  induction l with
  | nil => intro acc; simp [keepFirst]
  | cons x xs ih =>
    intro acc
    rw [List.foldl_cons]
    by_cases hx : x ∈ acc
    · rw [show dictInsert acc x = acc from if_pos hx, ih acc]
      have : ((x :: xs).filter fun y => y ∉ acc) = xs.filter fun y => y ∉ acc := by
        simp [List.filter_cons, hx]
      rw [this]
    · rw [show dictInsert acc x = acc ++ [x] from if_neg hx, ih (acc ++ [x])]
      have h1 : ((x :: xs).filter fun y => y ∉ acc) = x :: (xs.filter fun y => y ∉ acc) := by
        simp [List.filter_cons, hx]
      rw [h1, keepFirst, List.append_assoc, List.singleton_append]
      have h2 : ((xs.filter fun y => y ∉ acc).filter fun y => y ≠ x)
          = xs.filter fun y => y ∉ acc ++ [x] := by
        rw [List.filter_filter]
        refine List.filter_congr ?_
        intro y _
        by_cases hyx : y = x
        · simp [hyx]
        · by_cases hya : y ∈ acc <;> simp [hyx, hya]
      rw [h2]

/-! ## Claim C5: deduplication -/

/-- C5: the dict-based deduplication returns exactly the first occurrence of
each path in first-occurrence order: it equals the keep-first function, is a
subsequence of the input, has no duplicates, keeps exactly the input's
members, and contains each input path exactly once. -/
theorem c5_dedup_first_occurrence (l : List String) :
    dedupFiles l = keepFirst l ∧
    (dedupFiles l).Sublist l ∧
    (dedupFiles l).Nodup ∧
    (∀ x, x ∈ dedupFiles l ↔ x ∈ l) ∧
    (∀ x ∈ l, (dedupFiles l).count x = 1) := by
  have hmain : dedupFiles l = keepFirst l := by
    rw [dedupFiles, foldl_dictInsert l [], List.nil_append]
    congr 1
    refine List.filter_eq_self.mpr ?_
    intro a _
    simp
  refine ⟨hmain, ?_, ?_, ?_, ?_⟩
  · rw [hmain]; exact sublist_keepFirst l
  · rw [hmain]; exact nodup_keepFirst l
  · rw [hmain]; exact mem_keepFirst l
  · intro x hx
    rw [hmain]
    exact List.count_eq_one_of_mem (nodup_keepFirst l) ((mem_keepFirst l x).mpr hx)

/-! ## Input expansion (`verify_and_prepare_args` lines 154-170)

The filesystem is an explicit environment: `glob` enumerates a pattern's
matches in `ROOT.glob` order, `canon` models `verify_and_canonicanize_path`
(resolve strictly, open for read, read one byte), giving the canonical path
or the raised `FfmpegNmlzError` message. -/

/-- `'*' in pattern or '?' in pattern` (line 158). -/
def hasWildcard (pattern : String) : Bool :=
  pattern.data.contains '*' || pattern.data.contains '?'

/-- Abstract filesystem environment. -/
structure FS where
  glob : String → List String
  canon : String → Except String String

/-- Lines 158-170, one pattern: a wildcard pattern with no matches raises
`No files found for pattern: <pattern>`; otherwise every match (or the
literal path) is canonicalized in order, stopping at the first failure. -/
def expandOne (fs : FS) (pattern : String) : Except String (List String) :=
  if hasWildcard pattern then
    match fs.glob pattern with
    | [] => .error ("No files found for pattern: " ++ pattern)
    | files => files.mapM fs.canon
  else
    (fs.canon pattern).map (fun p => [p])

/-- The whole expansion loop over `input_patterns`, accumulating
`input_files` and raising the first failure. -/
def expandPatterns (fs : FS) : List String → Except String (List String)
  | [] => .ok []
  | p :: ps =>
    match expandOne fs p with
    | .error e => .error e
    | .ok files =>
      match expandPatterns fs ps with
      | .error e => .error e
      | .ok rest => .ok (files ++ rest)

theorem expandPatterns_append (fs : FS) (l₁ l₂ : List String) :
    expandPatterns fs (l₁ ++ l₂) =
      match expandPatterns fs l₁ with
      | .error e => .error e
      | .ok f₁ =>
        match expandPatterns fs l₂ with
        | .error e => .error e
        | .ok f₂ => .ok (f₁ ++ f₂) := by
  induction l₁ with
  | nil =>
    simp only [List.nil_append, expandPatterns]
    cases expandPatterns fs l₂ <;> simp
  | cons q qs ih =>
    simp only [List.cons_append, expandPatterns, List.append_eq, ih]
    cases expandOne fs q with
    | error e => rfl
    | ok files =>
      cases expandPatterns fs qs with
      | error e => rfl
      | ok rest =>
        cases expandPatterns fs l₂ with
        | error e => rfl
        | ok rest₂ => simp

/-! ## Claim C8: empty glob match -/

/-- C8: a wildcard token whose expansion matches zero files makes argument
preparation fail — once the tokens before it have expanded, the error is the
`InputError` naming that exact pattern; and whatever the other tokens do, no
file list is produced. -/
theorem c8_empty_glob_fails (fs : FS) (pre post : List String) (p : String)
    (hw : hasWildcard p = true) (hg : fs.glob p = []) :
    (∀ acc, expandPatterns fs pre = .ok acc →
      expandPatterns fs (pre ++ p :: post) =
        .error ("No files found for pattern: " ++ p)) ∧
    (∀ files, expandPatterns fs (pre ++ p :: post) ≠ .ok files) := by
  have hone : expandOne fs p = .error ("No files found for pattern: " ++ p) := by
    rw [expandOne, if_pos hw, hg]
  have hcons : expandPatterns fs (p :: post) =
      .error ("No files found for pattern: " ++ p) := by
    rw [expandPatterns, hone]
  constructor
  · intro acc hpre
    rw [expandPatterns_append, hpre, hcons]
  · intro files
    rw [expandPatterns_append, hcons]
    cases expandPatterns fs pre <;> simp

/-- An environment with no files at all, for the C8 witness. -/
def emptyFS : FS := ⟨fun _ => [], fun p => .ok p⟩

/-- C8 witness: the pattern `*.mp3` in an empty directory. -/
theorem c8_empty_glob_fails_witness :
    hasWildcard "*.mp3" = true ∧ emptyFS.glob "*.mp3" = [] ∧
    ((∀ acc, expandPatterns emptyFS [] = .ok acc →
        expandPatterns emptyFS ([] ++ "*.mp3" :: []) =
          .error ("No files found for pattern: " ++ "*.mp3")) ∧
     (∀ files, expandPatterns emptyFS ([] ++ "*.mp3" :: []) ≠ .ok files)) :=
  ⟨by decide, rfl, c8_empty_glob_fails emptyFS [] [] "*.mp3" (by decide) rfl⟩

/-! ## Orchestration and top-level error handling (`do_normalizing`, `main`)

Per-file processing (the two ffmpeg invocations, lines 208-220) is abstracted
to its outcome: `none` = both passes succeeded, `some msg` = the
`FfmpegNmlzError` message raised for that file.  The sequential `for` loop and
`main`'s `try/except` around it are translated verbatim. -/

/-- The `for` loop of `do_normalizing`: how many files complete, and the
first error raised (files after it are never reached). -/
def doNormalizeLoop : List (Option String) → Nat × Option String
  | [] => (0, none)
  | none :: rest =>
    ((doNormalizeLoop rest).1 + 1, (doNormalizeLoop rest).2)
  | some e :: _ => (0, some e)

/-- Observable outcome of a run of `main`. -/
structure RunResult where
  processed : Nat
  stderrLines : List String
  exitCode : Nat
deriving DecidableEq, Repr

/-- `main` (lines 223-227): `do_normalizing` under `try/except FfmpegNmlzError`;
the handler prints `\nERROR: <message>` to stderr and `main` then returns
normally, so the interpreter's exit status is 0 on both paths. -/
def mainRun (files : List (Option String)) : RunResult :=
  match doNormalizeLoop files with
  | (n, none) => ⟨n, [], 0⟩
  | (n, some e) => ⟨n, ["\nERROR: " ++ e], 0⟩

theorem doNormalizeLoop_all_none (pre : List (Option String))
    (h : ∀ x ∈ pre, x = none) :
    doNormalizeLoop pre = (pre.length, none) ∧
    ∀ msg post, doNormalizeLoop (pre ++ some msg :: post) = (pre.length, some msg) := by
  induction pre with
  | nil => exact ⟨rfl, fun msg post => rfl⟩
  | cons x xs ih =>
    have hx : x = none := h x (by simp)
    have hxs : ∀ y ∈ xs, y = none := fun y hy => h y (by simp [hy])
    obtain ⟨h1, h2⟩ := ih hxs
    subst hx
    constructor
    · rw [show doNormalizeLoop (none :: xs)
          = ((doNormalizeLoop xs).1 + 1, (doNormalizeLoop xs).2) from rfl, h1]
      simp
    · intro msg post
      rw [List.cons_append,
        show doNormalizeLoop (none :: (xs ++ some msg :: post))
          = ((doNormalizeLoop (xs ++ some msg :: post)).1 + 1,
             (doNormalizeLoop (xs ++ some msg :: post)).2) from rfl,
        h2 msg post]
      simp

/-! ## Claim C7: error reporting and termination -/

/-- C7 counterexample: on a typed failure the program prints the error to
stderr but `main` swallows the exception and returns, so the process
terminates **normally** (exit status 0), not abnormally as the claim states. -/
theorem c7_counterexample :
    (mainRun [some "FFmpeg exited abnormally."]).exitCode = 0 ∧
    (mainRun [some "FFmpeg exited abnormally."]).stderrLines =
      ["\nERROR: FFmpeg exited abnormally."] :=
  ⟨rfl, rfl⟩

/-- C7 (amended): on the first typed failure the program prints
`\nERROR: <message>` to standard error and stops — the files after the
failing one are not processed — but it terminates with exit status 0; with no
failure it processes every file, prints nothing to stderr and exits with 0. -/
theorem c7_error_stops_run (pre post : List (Option String)) (msg : String)
    (h : ∀ x ∈ pre, x = none) :
    mainRun (pre ++ some msg :: post) =
      ⟨pre.length, ["\nERROR: " ++ msg], 0⟩ ∧
    mainRun pre = ⟨pre.length, [], 0⟩ := by
  obtain ⟨h1, h2⟩ := doNormalizeLoop_all_none pre h
  constructor
  · rw [mainRun, h2 msg post]
  · rw [mainRun, h1]

/-- C7 witness: one successful file, then a failure, then an unreached file. -/
theorem c7_error_stops_run_witness :
    (∀ x ∈ [(none : Option String)], x = none) ∧
    (mainRun [none, some "FFmpeg exited abnormally.", some "unreached"] =
      ⟨1, ["\nERROR: " ++ "FFmpeg exited abnormally."], 0⟩ ∧
     mainRun [none] = ⟨1, [], 0⟩) :=
  ⟨by simp,
   c7_error_stops_run [none] [some "unreached"] "FFmpeg exited abnormally." (by simp)⟩

/-! ## Path derivation (`get_out_path`; `main.py` `get_path`)

Resolved POSIX paths are modelled as strings: absolute, normalized, `/`
separating components.  `baseNameL`/`dirSlashL` split a path at its last
slash (`PurePath.name` / `str(PurePath.parent)` + the joining slash);
`splitExtL` models CPython's `PurePath.stem`/`.suffix`: with
`i = name.rfind('.')`, the name splits at `i` exactly when
`0 < i < len(name) - 1` — that is, when there is a dot with at least one
character before it and one after it. -/

/-- The final path component: the characters after the last `/`. -/
def baseNameL (p : List Char) : List Char :=
  (p.reverse.takeWhile (fun c => c ≠ '/')).reverse

/-- Everything up to and including the last `/`. -/
def dirSlashL (p : List Char) : List Char :=
  (p.reverse.dropWhile (fun c => c ≠ '/')).reverse

/-- `(name.stem, name.suffix)` of a final component: the reversed name is
`extRev ++ lastDot :: beforeRev`; the split happens only when there is a dot
(`dropWhile ≠ []`), it is not the first character (`beforeRev ≠ []`) and not
the last (`extRev ≠ []`). -/
def splitExtL (n : List Char) : List Char × List Char :=
  match n.reverse.dropWhile (fun c => c ≠ '.') with
  | [] => (n, [])
  | [_] => (n, [])
  | hd :: restRev =>
    match n.reverse.takeWhile (fun c => c ≠ '.') with
    | [] => (n, [])
    | extRev => (restRev.reverse, hd :: extRev.reverse)

def stemL (n : List Char) : List Char := (splitExtL n).1

def suffixL (n : List Char) : List Char := (splitExtL n).2

/-- `PurePath(p).stem` as a string operation. -/
def pathStem (p : String) : String := ⟨stemL (baseNameL p.data)⟩

/-- `get_out_path` (`__main__.py` lines 96-97):
`output_dir / f'{in_path.stem}-1.{format_config.extension}'`, the join
written for a directory without a trailing slash. -/
def getOutPath (outputDir : String) (cfg : FormatConfig) (inPath : String) : String :=
  outputDir ++ "/" ++ pathStem inPath ++ "-1." ++ cfg.extension

/-- `get_path` (`main.py` lines 53-60) with `out_path_str = None`:
`in_path.parent / f'{stem}-1.wav'` when the input's suffix is `.wav`,
`in_path.parent / f'{stem}.wav'` otherwise (the final no-op
`resolve(strict=False)` of an absolute normalized path is the identity). -/
def getPathDefaultOut (inPath : String) : String :=
  if suffixL (baseNameL inPath.data) = ".wav".data then
    (⟨dirSlashL inPath.data⟩ : String) ++ pathStem inPath ++ "-1.wav"
  else
    (⟨dirSlashL inPath.data⟩ : String) ++ pathStem inPath ++ ".wav"

theorem takeWhile_append_all {p : Char → Bool} :
    ∀ (l₁ : List Char) {c : Char} {l₂ : List Char},
      (∀ x ∈ l₁, p x = true) → p c = false →
      (l₁ ++ c :: l₂).takeWhile p = l₁ := by
  intro l₁
  induction l₁ with
  | nil =>
    intro c l₂ _ hc
    simp [List.takeWhile_cons, hc]
  | cons a t ih =>
    intro c l₂ h hc
    have ha : p a = true := h a (by simp)
    simp only [List.cons_append, List.takeWhile_cons, ha, if_true]
    rw [ih (fun x hx => h x (by simp [hx])) hc]

theorem head_dropWhile_false {p : Char → Bool} :
    ∀ (l : List Char) {hd : Char} {rest : List Char},
      l.dropWhile p = hd :: rest → p hd = false := by
  intro l
  induction l with
  | nil => intro hd rest h; simp [List.dropWhile] at h
  | cons a t ih =>
    intro hd rest h
    rw [List.dropWhile_cons] at h
    by_cases ha : p a = true
    · rw [if_pos ha] at h
      exact ih h
    · rw [if_neg ha] at h
      obtain ⟨rfl, -⟩ := List.cons.inj h
      exact eq_false_of_ne_true ha

theorem baseNameL_append {a b : List Char} (hb : ∀ c ∈ b, c ≠ '/') :
    baseNameL (a ++ '/' :: b) = b := by
  unfold baseNameL
  have h1 : (a ++ '/' :: b).reverse = b.reverse ++ '/' :: a.reverse := by
    simp [List.reverse_append]
  rw [h1, takeWhile_append_all b.reverse
    (fun x hx => by simpa using hb x (List.mem_reverse.mp hx)) (by decide),
    List.reverse_reverse]

theorem mem_baseNameL {p : List Char} : ∀ c ∈ baseNameL p, c ≠ '/' := by
  intro c hc
  unfold baseNameL at hc
  have := List.mem_takeWhile_imp (List.mem_reverse.mp hc)
  simpa using this

theorem dirSlashL_append_baseNameL (p : List Char) : dirSlashL p ++ baseNameL p = p := by
  unfold dirSlashL baseNameL
  rw [← List.reverse_append, List.takeWhile_append_dropWhile, List.reverse_reverse]

theorem stemL_append_suffixL (n : List Char) : stemL n ++ suffixL n = n := by
  unfold stemL suffixL splitExtL
  cases h : n.reverse.dropWhile (fun c => c ≠ '.') with
  | nil => simp
  | cons hd restRev =>
    cases restRev with
    | nil => simp
    | cons b bs =>
      cases ht : n.reverse.takeWhile (fun c => c ≠ '.') with
      | nil => simp
      | cons e es =>
        simp only
        have hsplit : (e :: es) ++ (hd :: b :: bs) = n.reverse := by
          rw [← ht, ← h]
          exact List.takeWhile_append_dropWhile _ _
        have : n = (b :: bs).reverse ++ hd :: (e :: es).reverse := by
          conv_lhs => rw [← List.reverse_reverse n, ← hsplit]
          simp [List.reverse_append]
        rw [← this]

theorem suffixL_head (n : List Char) : suffixL n = [] ∨ ∃ t, suffixL n = '.' :: t := by
  unfold suffixL splitExtL
  cases h : n.reverse.dropWhile (fun c => c ≠ '.') with
  | nil => left; rfl
  | cons hd restRev =>
    cases restRev with
    | nil => left; simp
    | cons b bs =>
      cases ht : n.reverse.takeWhile (fun c => c ≠ '.') with
      | nil => left; simp
      | cons e es =>
        right
        refine ⟨(e :: es).reverse, ?_⟩
        have hhd : hd = '.' := by
          have := head_dropWhile_false n.reverse h
          simpa using this
        simp [hhd]

theorem mem_stemL {n : List Char} : ∀ c ∈ stemL n, c ∈ n := by
  intro c
  unfold stemL splitExtL
  cases h : n.reverse.dropWhile (fun c => c ≠ '.') with
  | nil => intro hc; simpa using hc
  | cons hd restRev =>
    cases restRev with
    | nil => intro hc; simpa using hc
    | cons b bs =>
      cases ht : n.reverse.takeWhile (fun c => c ≠ '.') with
      | nil => intro hc; simpa using hc
      | cons e es =>
        simp only
        intro hc
        have h1 : c ∈ hd :: b :: bs := by
          simp only [List.mem_reverse] at hc
          exact List.mem_cons_of_mem hd hc
        rw [← h] at h1
        exact List.mem_reverse.mp ((List.dropWhile_sublist _).subset h1)

/-! ## Claim C4: the output path shape -/

/-- C4: for every input the resolved output path is the output directory
joined with the input's stem, the literal `-1`, a dot and the chosen
extension; in particular `song.mp3` with extension `wav` into `/out` gives
`/out/song-1.wav`. -/
theorem c4_out_path_shape (outputDir : String) (cfg : FormatConfig) (inPath : String) :
    getOutPath outputDir cfg inPath
      = outputDir ++ "/" ++ pathStem inPath ++ "-1." ++ cfg.extension ∧
    getOutPath "/out" ⟨"pcm_s16le", "wav", none⟩ "song.mp3" = "/out/song-1.wav" ∧
    pathStem "song.mp3" = "song" := by
  refine ⟨rfl, ?_, ?_⟩ <;> decide

/-! ## Claim C6: output never overwrites input -/

/-- C6 counterexample, refuting both halves of the claim.
First: for input `/music/song.mp3`, extension `wav` and output directory
`/out`, the plain derived path `/out/song.wav` does not collide with the
input, yet `get_out_path` still appends `-1` — `-1` is appended
unconditionally, not "only when a collision would occur".
Second: the extension comes verbatim from the unvalidated `-e` flag, so it
may contain a slash; with `-e x/y`, output directory `/out` and existing
input `/out/y-1.x/y` (stem `y`), `get_out_path` derives
`/out / 'y-1.' + 'x/y'` — exactly the input path, so "the derived output
path never equals the input path" is also false of the program. -/
theorem c6_counterexample :
    (getOutPath "/out" ⟨"pcm_s16le", "wav", none⟩ "/music/song.mp3" = "/out/song-1.wav" ∧
     "/out/song.wav" ≠ "/music/song.mp3") ∧
    getOutPath "/out" ⟨"pcm_s16le", "x/y", none⟩ "/out/y-1.x/y" = "/out/y-1.x/y" := by
  refine ⟨⟨?_, ?_⟩, ?_⟩ <;> decide

/-- C6 (amended): as long as the chosen extension contains no `/` — true of
every preset extension, and violable only through the unvalidated `-e` flag
(see the counterexample's second half) — the derived output path never
equals the input path; `get_out_path` appends `-1` unconditionally, while
`main.py`'s `get_path` (with the default output) never equals its input and
appends `-1` exactly when the plain derived name `parent/stem.wav` would
collide with the input, i.e. when the input's suffix is already `.wav`. -/
theorem c6_no_overwrite (outputDir : String) (cfg : FormatConfig) (inPath q : String)
    (hext : '/' ∉ cfg.extension.data) :
    getOutPath outputDir cfg inPath ≠ inPath ∧
    getPathDefaultOut q ≠ q ∧
    (getPathDefaultOut q = (⟨dirSlashL q.data⟩ : String) ++ pathStem q ++ "-1.wav" ↔
      (⟨dirSlashL q.data⟩ : String) ++ pathStem q ++ ".wav" = q) := by
  have hq : dirSlashL q.data ++ (stemL (baseNameL q.data) ++ suffixL (baseNameL q.data))
      = q.data := by
    conv_lhs => rw [stemL_append_suffixL]
    rw [dirSlashL_append_baseNameL]
  have hout1 : ((⟨dirSlashL q.data⟩ : String) ++ pathStem q ++ "-1.wav").data
      = dirSlashL q.data ++ (stemL (baseNameL q.data) ++ "-1.wav".data) := by
    rw [String.data_append, String.data_append, List.append_assoc]
    rfl
  have hout2 : ((⟨dirSlashL q.data⟩ : String) ++ pathStem q ++ ".wav").data
      = dirSlashL q.data ++ (stemL (baseNameL q.data) ++ ".wav".data) := by
    rw [String.data_append, String.data_append, List.append_assoc]
    rfl
  refine ⟨?_, ?_, ?_⟩
  · intro heq
    have hdata := String.ext_iff.mp heq
    have key : inPath.data = outputDir.data
        ++ '/' :: (stemL (baseNameL inPath.data) ++ ('-' :: '1' :: '.' :: cfg.extension.data)) := by
      conv_lhs => rw [← hdata]
      show (outputDir ++ "/" ++ pathStem inPath ++ "-1." ++ cfg.extension).data = _
      rw [String.data_append, String.data_append, String.data_append, String.data_append]
      simp [pathStem, List.append_assoc]
    have hb : ∀ c ∈ stemL (baseNameL inPath.data) ++ ('-' :: '1' :: '.' :: cfg.extension.data),
        c ≠ '/' := by
      intro c hc
      rcases List.mem_append.mp hc with hc | hc
      · exact mem_baseNameL c (mem_stemL c hc)
      · simp only [List.mem_cons] at hc
        rcases hc with rfl | rfl | rfl | hc
        · decide
        · decide
        · decide
        · intro hcontra
          exact hext (hcontra ▸ hc)
    have hbase : baseNameL inPath.data
        = stemL (baseNameL inPath.data) ++ ('-' :: '1' :: '.' :: cfg.extension.data) := by
      conv_lhs => rw [key]
      exact baseNameL_append hb
    have hcancel : suffixL (baseNameL inPath.data)
        = '-' :: '1' :: '.' :: cfg.extension.data :=
      List.append_cancel_left ((stemL_append_suffixL (baseNameL inPath.data)).trans hbase)
    rcases suffixL_head (baseNameL inPath.data) with h0 | ⟨t, h0⟩
    · rw [h0] at hcancel
      exact List.noConfusion hcancel
    · rw [h0] at hcancel
      injection hcancel with h1 _
      exact absurd h1 (by decide)
  · intro heq
    by_cases hs : suffixL (baseNameL q.data) = ".wav".data
    · rw [getPathDefaultOut, if_pos hs] at heq
      have hd2 : dirSlashL q.data ++ (stemL (baseNameL q.data) ++ "-1.wav".data)
          = dirSlashL q.data ++ (stemL (baseNameL q.data) ++ suffixL (baseNameL q.data)) :=
        (hout1.symm.trans (String.ext_iff.mp heq)).trans hq.symm
      have h2 := List.append_cancel_left (List.append_cancel_left hd2)
      rw [hs] at h2
      exact absurd h2 (by decide)
    · rw [getPathDefaultOut, if_neg hs] at heq
      have hd2 : dirSlashL q.data ++ (stemL (baseNameL q.data) ++ ".wav".data)
          = dirSlashL q.data ++ (stemL (baseNameL q.data) ++ suffixL (baseNameL q.data)) :=
        (hout2.symm.trans (String.ext_iff.mp heq)).trans hq.symm
      have h2 := List.append_cancel_left (List.append_cancel_left hd2)
      exact hs h2.symm
  · by_cases hs : suffixL (baseNameL q.data) = ".wav".data
    · refine iff_of_true ?_ ?_
      · rw [getPathDefaultOut, if_pos hs]
      · apply String.ext
        rw [hout2, ← hs]
        exact hq
    · refine iff_of_false ?_ ?_
      · rw [getPathDefaultOut, if_neg hs]
        intro heq
        have hd2 : dirSlashL q.data ++ (stemL (baseNameL q.data) ++ ".wav".data)
            = dirSlashL q.data ++ (stemL (baseNameL q.data) ++ "-1.wav".data) :=
          (hout2.symm.trans (String.ext_iff.mp heq)).trans hout1
        have h2 := List.append_cancel_left (List.append_cancel_left hd2)
        exact absurd h2 (by decide)
      · intro heq
        have hd2 : dirSlashL q.data ++ (stemL (baseNameL q.data) ++ ".wav".data)
            = dirSlashL q.data ++ (stemL (baseNameL q.data) ++ suffixL (baseNameL q.data)) :=
          (hout2.symm.trans (String.ext_iff.mp heq)).trans hq.symm
        have h2 := List.append_cancel_left (List.append_cancel_left hd2)
        exact hs h2.symm

/-- C6 witness: the amended statement at `/music/song.mp3` (multi-format
pipeline) and `/d/track.wav` (wav-only pipeline). -/
theorem c6_no_overwrite_witness :
    ('/' ∉ ("wav" : String).data) ∧
    (getOutPath "/out" ⟨"pcm_s16le", "wav", none⟩ "/music/song.mp3" ≠ "/music/song.mp3" ∧
     getPathDefaultOut "/d/track.wav" ≠ "/d/track.wav" ∧
     (getPathDefaultOut "/d/track.wav"
        = (⟨dirSlashL ("/d/track.wav" : String).data⟩ : String)
          ++ pathStem "/d/track.wav" ++ "-1.wav" ↔
      (⟨dirSlashL ("/d/track.wav" : String).data⟩ : String)
          ++ pathStem "/d/track.wav" ++ ".wav" = "/d/track.wav")) :=
  ⟨by decide,
   c6_no_overwrite "/out" ⟨"pcm_s16le", "wav", none⟩ "/music/song.mp3" "/d/track.wav"
     (by decide)⟩

end FfmpegNmlz
